import Mathlib

/-!
Verification of the Mouser BOM pricing tool (source: get_mouser_prices.py).

The Python source is shallowly embedded: pure helpers become Lean
functions, the stateful fetch loop becomes a step function on an explicit
state record driven by an oracle of per-attempt network outcomes, and
Python exceptions become Option/Except error values.  Float arithmetic on
the claim-relevant inputs is exact, and prices are modelled as rationals.
-/

/-- A price break from the API.  In the source each break is a dict with a
Quantity key and a Price string; the price string has already been
normalised to a number by the time it is used, so it is modelled as a
rational directly. -/
structure PriceBreak where
  Quantity : Nat
  Price : ℚ
deriving DecidableEq

/-- Lookup in the Python dict comprehension price_dict of
find_price_for_quantity: later list entries overwrite earlier ones, so the
lookup returns the last matching break's price. -/
def pyDictGet (q : Nat) : List PriceBreak → Option ℚ
  | [] => none
  | pb :: rest =>
    match pyDictGet q rest with
    | some v => some v
    | none => if pb.Quantity = q then some pb.Price else none

/-- The keys of price_dict in Python dict order: the first occurrence of
each quantity, in insertion order. -/
def pyDictKeys : List PriceBreak → List Nat
  | [] => []
  | pb :: rest => pb.Quantity :: (pyDictKeys rest).filter (fun q => q ≠ pb.Quantity)

/-- sorted(keys, reverse=True): sort a list of quantities in descending
order. -/
def sortDesc (l : List Nat) : List Nat :=
  l.insertionSort (fun a b => b ≤ a)

/-- The greedy accumulation loop of find_price_for_quantity
(for quantity in sorted_quantities: ...).  A division by a zero quantity
would raise ZeroDivisionError in Python, modelled by none.  Returns the
accumulated price and the remaining quantity. -/
def greedyLoop (lookup : Nat → ℚ) : List Nat → Nat → ℚ → Option (ℚ × Nat)
  | [], rem, acc => some (acc, rem)
  | q :: qs, rem, acc =>
    if q ≤ rem then
      if q = 0 then none
      else greedyLoop lookup qs (rem % q) (acc + ((rem / q : Nat) : ℚ) * lookup q)
    else greedyLoop lookup qs rem acc

/-- DataProcessor.find_price_for_quantity.  none models an uncaught Python
exception (IndexError on sorted_quantities[-1] when the break list is
empty, or ZeroDivisionError on a zero quantity); the lookups inside the
loop and fallback always hit existing keys, so the getD default is never
the value used. -/
def find_price_for_quantity (price_breaks : List PriceBreak) (target_quantity : Nat) : Option ℚ :=
  match pyDictGet target_quantity price_breaks with
  | some p => some p
  | none =>
    let sorted_quantities := sortDesc (pyDictKeys price_breaks)
    match greedyLoop (fun q => (pyDictGet q price_breaks).getD 0) sorted_quantities target_quantity 0 with
    | none => none
    | some (nearest_price, _) =>
      if 0 < nearest_price then some nearest_price
      else
        match sorted_quantities.getLast? with
        | none => none
        | some qmin =>
          if qmin = 0 then none
          else some ((pyDictGet qmin price_breaks).getD 0 * ((target_quantity / qmin : Nat) : ℚ))

/-- The example break table of the spec: quantities 1, 10, 100 at unit
prices 10.0, 8.0, 6.0. -/
def exBreaks : List PriceBreak :=
  [⟨1, 10⟩, ⟨10, 8⟩, ⟨100, 6⟩]

/-- The greedy accumulation described by the spec, §4.2 step 3: walk the
break quantities (already sorted descending), and for each quantity that
fits into the remaining target accumulate (remaining // quantity) times
that quantity's unit price, reducing the remainder by those whole
multiples. -/
def greedySpecAccum (price : Nat → ℚ) : List Nat → Nat → ℚ
  | [], _ => 0
  | q :: qs, rem =>
    if q ≤ rem then
      ((rem / q : Nat) : ℚ) * price q + greedySpecAccum price qs (rem - rem / q * q)
    else greedySpecAccum price qs rem

lemma pyDictGet_eq_none (q : Nat) (pbs : List PriceBreak)
    (h : q ∉ pbs.map PriceBreak.Quantity) : pyDictGet q pbs = none := by
  induction pbs with
  | nil => rfl
  | cons pb rest ih =>
    simp only [List.map_cons, List.mem_cons, not_or] at h
    simp only [pyDictGet, ih h.2]
    rw [if_neg (fun hq => h.1 hq.symm)]

lemma pyDictGet_some (q : Nat) (pbs : List PriceBreak) (v : ℚ)
    (h : pyDictGet q pbs = some v) : ∃ pb ∈ pbs, pb.Quantity = q ∧ pb.Price = v := by
  induction pbs with
  | nil => simp [pyDictGet] at h
  | cons pb rest ih =>
    simp only [pyDictGet] at h
    cases hr : pyDictGet q rest with
    | some w =>
      rw [hr] at h
      obtain ⟨pb', hmem, hq, hp⟩ := ih (hr.trans (by simpa using h))
      exact ⟨pb', List.mem_cons_of_mem _ hmem, hq, hp⟩
    | none =>
      rw [hr] at h
      by_cases hq : pb.Quantity = q
      · rw [if_pos hq, Option.some.injEq] at h
        exact ⟨pb, List.mem_cons_self _ _, hq, h⟩
      · rw [if_neg hq] at h
        exact absurd h (by simp)

lemma pyDictGet_isSome (q : Nat) (pbs : List PriceBreak)
    (h : q ∈ pbs.map PriceBreak.Quantity) : (pyDictGet q pbs).isSome := by
  induction pbs with
  | nil => simp at h
  | cons pb rest ih =>
    simp only [pyDictGet]
    cases hr : pyDictGet q rest with
    | some w => simp
    | none =>
      simp only [List.map_cons, List.mem_cons] at h
      cases h with
      | inl hq => simp [hq]
      | inr hmem =>
        have := ih hmem
        rw [hr] at this
        simp at this

lemma pyDictGet_getD_agree (q : Nat) (pbs : List PriceBreak) (price : Nat → ℚ)
    (hag : ∀ pb ∈ pbs, price pb.Quantity = pb.Price)
    (hq : q ∈ pbs.map PriceBreak.Quantity) :
    (pyDictGet q pbs).getD 0 = price q := by
  obtain ⟨v, hv⟩ := Option.isSome_iff_exists.mp (pyDictGet_isSome q pbs hq)
  obtain ⟨pb, hmem, hqq, hpp⟩ := pyDictGet_some q pbs v hv
  rw [hv, Option.getD_some, ← hpp, ← hag pb hmem, hqq]

lemma pyDictGet_nodup (pbs : List PriceBreak) (pb : PriceBreak)
    (hN : (pbs.map PriceBreak.Quantity).Nodup) (hmem : pb ∈ pbs) :
    pyDictGet pb.Quantity pbs = some pb.Price := by
  induction pbs with
  | nil => simp at hmem
  | cons a rest ih =>
    simp only [List.map_cons, List.nodup_cons] at hN
    rcases List.mem_cons.mp hmem with rfl | hmem'
    · have hnone : pyDictGet pb.Quantity rest = none :=
        pyDictGet_eq_none _ _ hN.1
      simp [pyDictGet, hnone]
    · have := ih hN.2 hmem'
      simp only [pyDictGet, this]

lemma pyDictKeys_eq_map (pbs : List PriceBreak)
    (hN : (pbs.map PriceBreak.Quantity).Nodup) :
    pyDictKeys pbs = pbs.map PriceBreak.Quantity := by
  induction pbs with
  | nil => rfl
  | cons pb rest ih =>
    simp only [List.map_cons, List.nodup_cons] at hN
    simp only [pyDictKeys, ih hN.2, List.map_cons, List.cons.injEq, true_and]
    apply List.filter_eq_self.mpr
    intro q hq
    simp only [ne_eq, decide_eq_true_eq]
    intro hqq
    exact hN.1 (hqq ▸ hq)

lemma nat_mod_eq_sub_div_mul (rem q : Nat) : rem % q = rem - rem / q * q := by
  have h := Nat.mod_add_div rem q
  have h2 : rem / q * q = q * (rem / q) := Nat.mul_comm _ _
  omega

lemma greedyLoop_eq_spec (lookup price : Nat → ℚ) :
    ∀ (qs : List Nat) (rem : Nat) (acc : ℚ),
      (∀ x ∈ qs, 0 < x) → (∀ x ∈ qs, lookup x = price x) →
      ∃ r, greedyLoop lookup qs rem acc = some (acc + greedySpecAccum price qs rem, r) := by
  intro qs
  induction qs with
  | nil =>
    intro rem acc _ _
    exact ⟨rem, by simp [greedyLoop, greedySpecAccum]⟩
  | cons q qs ih =>
    intro rem acc hpos hag
    by_cases hle : q ≤ rem
    · have hq0 : q ≠ 0 := Nat.pos_iff_ne_zero.mp (hpos q (List.mem_cons_self q qs))
      obtain ⟨r, hr⟩ := ih (rem % q) (acc + ((rem / q : Nat) : ℚ) * lookup q)
        (fun x hx => hpos x (List.mem_cons_of_mem _ hx))
        (fun x hx => hag x (List.mem_cons_of_mem _ hx))
      refine ⟨r, ?_⟩
      simp only [greedyLoop, if_pos hle, if_neg hq0, hr, greedySpecAccum,
        Option.some.injEq, Prod.mk.injEq, and_true]
      rw [hag q (List.mem_cons_self q qs), nat_mod_eq_sub_div_mul rem q]
      ring
    · obtain ⟨r, hr⟩ := ih rem acc
        (fun x hx => hpos x (List.mem_cons_of_mem _ hx))
        (fun x hx => hag x (List.mem_cons_of_mem _ hx))
      exact ⟨r, by simp only [greedyLoop, if_neg hle, hr, greedySpecAccum]⟩

instance : IsTotal Nat fun a b => b ≤ a :=
  ⟨fun a b => le_total b a⟩

instance : IsTrans Nat fun a b => b ≤ a :=
  ⟨fun _ _ _ h1 h2 => le_trans h2 h1⟩

lemma mem_sortDesc {l : List Nat} {x : Nat} (hx : x ∈ sortDesc l) : x ∈ l :=
  (List.perm_insertionSort _ _).mem_iff.mp hx

lemma sortDesc_sorted (l : List Nat) : (sortDesc l).Sorted fun a b => b ≤ a :=
  List.sorted_insertionSort _ l

lemma sorted_getLast?_le :
    ∀ (l : List Nat), (l.Sorted fun a b => b ≤ a) →
      ∀ (q : Nat), l.getLast? = some q → ∀ x ∈ l, q ≤ x := by
  intro l
  induction l with
  | nil =>
    intro _ q hq
    simp at hq
  | cons a t ih =>
    intro hs q hq x hx
    cases t with
    | nil =>
      simp only [List.getLast?_singleton, Option.some.injEq] at hq
      simp only [List.mem_singleton] at hx
      simp [hq, hx]
    | cons b t2 =>
      rw [List.getLast?_cons_cons] at hq
      rcases List.mem_cons.mp hx with rfl | hx'
      · have hqmem : q ∈ b :: t2 := by
          have hmm : q ∈ (b :: t2).getLast? := Option.mem_def.mpr hq
          obtain ⟨h, hql⟩ := List.mem_getLast?_eq_getLast hmm
          rw [hql]
          exact List.getLast_mem h
        exact List.rel_of_sorted_cons hs q hqmem
      · exact ih hs.of_cons q hq x hx'

/-- The smallest break quantity, as computed by the source:
sorted_quantities[-1] where sorted_quantities is sorted descending. -/
def qminOf (pbs : List PriceBreak) : Nat :=
  (sortDesc (pbs.map PriceBreak.Quantity)).getLastD 0

/-- C2: for every price-break list with distinct positive quantities and a
target quantity equal to none of them, find_price_for_quantity sorts the
quantities descending and greedily accumulates, for each quantity at most
the remaining amount, (remaining // quantity) times that quantity's unit
price, reducing the remainder by those whole multiples; here stated
against the spec-side greedySpecAccum for any price table agreeing with
the breaks, in the case where the greedy total is positive (the zero case
is the fallback of C4).  The witness instantiates the spec's example:
breaks at quantities 1, 10, 100 and target 25 give 66. -/
theorem find_price_greedy_decomposition (pbs : List PriceBreak) (target : Nat) (price : Nat → ℚ)
    (hN : (pbs.map PriceBreak.Quantity).Nodup)
    (hpos : ∀ pb ∈ pbs, 0 < pb.Quantity)
    (hag : ∀ pb ∈ pbs, price pb.Quantity = pb.Price)
    (ht : target ∉ pbs.map PriceBreak.Quantity)
    (hgt : 0 < greedySpecAccum price (sortDesc (pbs.map PriceBreak.Quantity)) target) :
    find_price_for_quantity pbs target
      = some (greedySpecAccum price (sortDesc (pbs.map PriceBreak.Quantity)) target) := by
  have hkeys : pyDictKeys pbs = pbs.map PriceBreak.Quantity := pyDictKeys_eq_map pbs hN
  have hnone := pyDictGet_eq_none target pbs ht
  have hpos' : ∀ x ∈ sortDesc (pbs.map PriceBreak.Quantity), 0 < x := by
    intro x hx
    obtain ⟨pb, hpb, hE⟩ := List.mem_map.mp (mem_sortDesc hx)
    rw [← hE]
    exact hpos pb hpb
  have hag' : ∀ x ∈ sortDesc (pbs.map PriceBreak.Quantity),
      (fun q => (pyDictGet q pbs).getD 0) x = price x := by
    intro x hx
    exact pyDictGet_getD_agree x pbs price hag (mem_sortDesc hx)
  obtain ⟨r, hr⟩ := greedyLoop_eq_spec (fun q => (pyDictGet q pbs).getD 0) price
    (sortDesc (pbs.map PriceBreak.Quantity)) target 0 hpos' hag'
  rw [zero_add] at hr
  simp only [find_price_for_quantity, hnone, hkeys, hr, if_pos hgt]

/-- Witness for C2: the spec's example breaks and target quantity 25
return 66.0 (two 10-tiers at 8.0 plus five 1-tiers at 10.0). -/
theorem find_price_greedy_decomposition_witness :
    find_price_for_quantity exBreaks 25 = some 66 := by
  have h := find_price_greedy_decomposition exBreaks 25
    (fun q => if q = 1 then 10 else if q = 10 then 8 else 6)
    (by decide) (by decide) (by norm_num [exBreaks]) (by decide)
    (by norm_num [greedySpecAccum, sortDesc, List.insertionSort, List.orderedInsert, exBreaks])
  rw [h]
  norm_num [greedySpecAccum, sortDesc, List.insertionSort, List.orderedInsert, exBreaks]

/-- C3: when a break's quantity equals the target quantity,
find_price_for_quantity returns that break's unit price directly (not the
unit price multiplied by the quantity). -/
theorem find_price_exact_match (pbs : List PriceBreak) (target : Nat) (pb : PriceBreak)
    (hN : (pbs.map PriceBreak.Quantity).Nodup) (hmem : pb ∈ pbs)
    (hq : pb.Quantity = target) :
    find_price_for_quantity pbs target = some pb.Price := by
  have h := pyDictGet_nodup pbs pb hN hmem
  rw [hq] at h
  simp only [find_price_for_quantity, h]

/-- Witness for C3: the spec's example breaks at target quantity 10 give
8.0 (the tier's unit price, not 80.0). -/
theorem find_price_exact_match_witness :
    find_price_for_quantity exBreaks 10 = some 8 := by
  have h := find_price_exact_match exBreaks 10 ⟨10, 8⟩ (by decide) (by decide) rfl
  exact h

/-- C4: for a non-empty break list (distinct positive quantities, target
matching none of them) on which the greedy pass accumulates zero,
find_price_for_quantity falls back to the smallest break's unit price
times floor(target / smallest quantity); qminOf is shown to be a listed
quantity and a lower bound of all listed quantities.  The witness
instantiates the spec's example: breaks {100: 5.0} and target 50 give 0. -/
theorem find_price_zero_fallback (pbs : List PriceBreak) (target : Nat) (price : Nat → ℚ)
    (hN : (pbs.map PriceBreak.Quantity).Nodup)
    (hpos : ∀ pb ∈ pbs, 0 < pb.Quantity)
    (hag : ∀ pb ∈ pbs, price pb.Quantity = pb.Price)
    (ht : target ∉ pbs.map PriceBreak.Quantity)
    (hne : pbs ≠ [])
    (hz : greedySpecAccum price (sortDesc (pbs.map PriceBreak.Quantity)) target = 0) :
    find_price_for_quantity pbs target
      = some (price (qminOf pbs) * ((target / qminOf pbs : Nat) : ℚ)) ∧
    qminOf pbs ∈ pbs.map PriceBreak.Quantity ∧
    ∀ q ∈ pbs.map PriceBreak.Quantity, qminOf pbs ≤ q := by
  have hkeys : pyDictKeys pbs = pbs.map PriceBreak.Quantity := pyDictKeys_eq_map pbs hN
  have hnone := pyDictGet_eq_none target pbs ht
  have hpos' : ∀ x ∈ sortDesc (pbs.map PriceBreak.Quantity), 0 < x := by
    intro x hx
    obtain ⟨pb, hpb, hE⟩ := List.mem_map.mp (mem_sortDesc hx)
    rw [← hE]
    exact hpos pb hpb
  have hag' : ∀ x ∈ sortDesc (pbs.map PriceBreak.Quantity),
      (fun q => (pyDictGet q pbs).getD 0) x = price x := by
    intro x hx
    exact pyDictGet_getD_agree x pbs price hag (mem_sortDesc hx)
  obtain ⟨r, hr⟩ := greedyLoop_eq_spec (fun q => (pyDictGet q pbs).getD 0) price
    (sortDesc (pbs.map PriceBreak.Quantity)) target 0 hpos' hag'
  rw [zero_add, hz] at hr
  have hsne : sortDesc (pbs.map PriceBreak.Quantity) ≠ [] := by
    have hlen : (sortDesc (pbs.map PriceBreak.Quantity)).length
        = (pbs.map PriceBreak.Quantity).length :=
      (List.perm_insertionSort _ _).length_eq
    intro hcon
    rw [hcon] at hlen
    simp only [List.length_nil, List.length_map] at hlen
    exact hne (List.length_eq_zero.mp hlen.symm)
  have hq : (sortDesc (pbs.map PriceBreak.Quantity)).getLast? = some (qminOf pbs) := by
    rw [List.getLast?_eq_getLast_of_ne_nil hsne]
    unfold qminOf
    rw [List.getLastD_eq_getLast?, List.getLast?_eq_getLast_of_ne_nil hsne]
    rfl
  have hqmem_sorted : qminOf pbs ∈ sortDesc (pbs.map PriceBreak.Quantity) := by
    have hmm := Option.mem_def.mpr hq
    obtain ⟨h, hql⟩ := List.mem_getLast?_eq_getLast hmm
    rw [hql]
    exact List.getLast_mem h
  have hqmemK : qminOf pbs ∈ pbs.map PriceBreak.Quantity := mem_sortDesc hqmem_sorted
  have hqpos : 0 < qminOf pbs := by
    obtain ⟨pb, hpb, hE⟩ := List.mem_map.mp hqmemK
    rw [← hE]
    exact hpos pb hpb
  have hq0 : qminOf pbs ≠ 0 := Nat.pos_iff_ne_zero.mp hqpos
  have hlook : (pyDictGet (qminOf pbs) pbs).getD 0 = price (qminOf pbs) :=
    pyDictGet_getD_agree _ pbs price hag hqmemK
  refine ⟨?_, hqmemK, ?_⟩
  · simp only [find_price_for_quantity, hnone, hkeys, hr, lt_self_iff_false, if_false, hq,
      if_neg hq0, hlook]
  · intro q hqK
    exact sorted_getLast?_le _ (sortDesc_sorted _) _ hq q
      ((List.perm_insertionSort _ _).mem_iff.mpr hqK)

/-- Witness for C4: breaks {100: 5.0} and target quantity 50 return 0
(the degenerate fallback, 50 // 100 = 0). -/
theorem find_price_zero_fallback_witness :
    find_price_for_quantity [⟨100, 5⟩] 50 = some 0 := by
  have h := (find_price_zero_fallback [⟨100, 5⟩] 50 (fun _ => 5)
    (by decide) (by decide) (by decide) (by decide) (by decide)
    (by norm_num [greedySpecAccum, sortDesc, List.insertionSort, List.orderedInsert])).1
  rw [h]
  norm_num [qminOf, sortDesc, List.insertionSort, List.orderedInsert]

/-- C6: on the empty price-break list (the exact-match path cannot be
taken), find_price_for_quantity reaches the error branch — the source
indexes into the empty sorted quantity list, an uncaught IndexError,
modelled by none — for every target quantity. -/
theorem find_price_empty_breaks_fails (target : Nat) :
    find_price_for_quantity [] target = none := by
  norm_num [find_price_for_quantity, pyDictGet, pyDictKeys, sortDesc, greedyLoop,
    List.insertionSort]

/-- A URL of the input, together with the outcome of urlparse (an external
library call): the network location and path when parsing succeeds, none
when urlparse raises. -/
structure Url where
  raw : String
  parsed : Option (String × String)

/-- Python substring containment: pat in l. -/
def containsSub (pat : List Char) : List Char → Bool
  | [] => List.isPrefixOf pat []
  | c :: t => List.isPrefixOf pat (c :: t) || containsSub pat t

/-- Python str.lower, for the ASCII hosts at hand. -/
def lowerStr (s : String) : String :=
  ⟨s.data.map Char.toLower⟩

/-- Python str.split(sep) for a single-character separator: always returns
at least one (possibly empty) piece. -/
def splitOnChar (c : Char) : List Char → List (List Char)
  | [] => [[]]
  | x :: xs =>
    let r := splitOnChar c xs
    if x = c then [] :: r
    else
      match r with
      | h :: t => (x :: h) :: t
      | [] => [[x]]

/-- Python str.strip(): drop whitespace from both ends. -/
def pyStrip (s : String) : String :=
  ⟨((s.data.dropWhile Char.isWhitespace).reverse.dropWhile Char.isWhitespace).reverse⟩

/-- parsed_url.path.split('/')[-1].strip(): the final path segment,
stripped. -/
def lastSegment (path : String) : String :=
  pyStrip ⟨(splitOnChar '/' path.data).getLastD []⟩

/-- The supplier-domain test of the source, a Python membership test of
the marker mouser.com in parsed_url.netloc.lower(): a case-insensitive
substring check on the network location. -/
def isMouserDomain (netloc : String) : Bool :=
  containsSub ("mouser.com".data) ((lowerStr netloc).data)

/-- DataProcessor.extract_part_numbers_from_urls: split the URL list into
Mouser part numbers, non-Mouser URLs and errored URLs. -/
def extract_part_numbers_from_urls : List Url → List String × List String × List String
  | [] => ([], [], [])
  | u :: rest =>
    let r := extract_part_numbers_from_urls rest
    match u.parsed with
    | some (netloc, path) =>
      if isMouserDomain netloc then (lastSegment path :: r.1, r.2.1, r.2.2)
      else (r.1, u.raw :: r.2.1, r.2.2)
    | none => (r.1, r.2.1, u.raw :: r.2.2)

/-- Spec-side classifier: a URL whose host contains the supplier domain
marker yields its final path segment as PartIdentifier. -/
def supplierClass (u : Url) : Option String :=
  match u.parsed with
  | some (netloc, path) => if isMouserDomain netloc then some (lastSegment path) else none
  | none => none

/-- Spec-side classifier: a parseable URL on any other host is
non-supplier and passed through unchanged. -/
def nonSupplierClass (u : Url) : Option String :=
  match u.parsed with
  | some (netloc, _) => if isMouserDomain netloc then none else some u.raw
  | none => none

/-- Spec-side classifier: an unparseable URL is recorded as an error. -/
def errorClass (u : Url) : Option String :=
  match u.parsed with
  | some _ => none
  | none => some u.raw

/-- C7: extract_part_numbers_from_urls classifies every URL into exactly
one of the three classes and never raises (it is a total function): the
three output lists are the filterMaps of the three classifiers, and for
every URL exactly one classifier fires — supplier URLs yield the final
path segment, other parseable URLs are non-supplier, unparseable URLs are
errors. -/
theorem extract_urls_classification :
    (∀ urls : List Url,
      extract_part_numbers_from_urls urls =
        (urls.filterMap supplierClass, urls.filterMap nonSupplierClass,
          urls.filterMap errorClass)) ∧
    (∀ u : Url,
      ((supplierClass u).isSome ∧ nonSupplierClass u = none ∧ errorClass u = none) ∨
      (supplierClass u = none ∧ (nonSupplierClass u).isSome ∧ errorClass u = none) ∨
      (supplierClass u = none ∧ nonSupplierClass u = none ∧ (errorClass u).isSome)) := by
  constructor
  · intro urls
    induction urls with
    | nil => rfl
    | cons u rest ih =>
      cases hp : u.parsed with
      | some nlp =>
        obtain ⟨netloc, path⟩ := nlp
        by_cases hm : isMouserDomain netloc
        · simp [extract_part_numbers_from_urls, supplierClass, nonSupplierClass, errorClass,
            hp, hm, ih]
        · simp [extract_part_numbers_from_urls, supplierClass, nonSupplierClass, errorClass,
            hp, hm, ih]
      | none =>
        simp [extract_part_numbers_from_urls, supplierClass, nonSupplierClass, errorClass,
          hp, ih]
  · intro u
    cases hp : u.parsed with
    | some nlp =>
      obtain ⟨netloc, path⟩ := nlp
      by_cases hm : isMouserDomain netloc
      · exact Or.inl (by simp [supplierClass, nonSupplierClass, errorClass, hp, hm])
      · exact Or.inr (Or.inl (by simp [supplierClass, nonSupplierClass, errorClass, hp, hm]))
    | none =>
      exact Or.inr (Or.inr (by simp [supplierClass, nonSupplierClass, errorClass, hp]))

/-- C10: the supplier test is a case-insensitive substring check on the
network location — any URL whose lowercased host contains "mouser.com"
anywhere is treated as a supplier URL and contributes its final stripped
path segment as PartIdentifier, regardless of whether the host is
www.mouser.com.  The witness exercises hosts "notmouser.com" and
"Mouser.COM.example.net". -/
theorem mouser_domain_substring_match (raw netloc path : String)
    (h : containsSub ("mouser.com".data) ((lowerStr netloc).data) = true) :
    extract_part_numbers_from_urls [⟨raw, some (netloc, path)⟩]
      = ([lastSegment path], [], []) := by
  simp only [extract_part_numbers_from_urls, isMouserDomain, h, if_true]

/-- Witness for C10: a host of "notmouser.com" and a host of
"Mouser.COM.example.net" are both classified as supplier URLs, yielding
the final path segment. -/
theorem mouser_domain_substring_match_witness :
    extract_part_numbers_from_urls
        [⟨"https://notmouser.com/x/P42", some ("notmouser.com", "/x/P42")⟩]
      = (["P42"], [], []) ∧
    extract_part_numbers_from_urls
        [⟨"u2", some ("Mouser.COM.example.net", "/a/b/P7")⟩]
      = (["P7"], [], []) := by
  constructor
  · have h := mouser_domain_substring_match "https://notmouser.com/x/P42" "notmouser.com"
      "/x/P42" (by decide)
    rw [h]
    decide
  · have h := mouser_domain_substring_match "u2" "Mouser.COM.example.net" "/a/b/P7" (by decide)
    rw [h]
    decide

/-- The configuration file mouser_api_keys.yaml as an external input:
absent (open raises FileNotFoundError), malformed (yaml.safe_load returns
None), or a parsed mapping whose search_api_key entry may be missing. -/
inductive ConfigFile
  | absent
  | malformed
  | entries (searchApiKey : Option String)

/-- The error raised by get_api_key: the re-raised FileNotFoundError, or
the generic wrapper around the ValueError for an empty or missing key. -/
inductive ApiKeyError
  | configFileNotFound
  | wrappedError
deriving DecidableEq

/-- APIManager.get_api_key: the MOUSER_SEARCH_API_KEY environment variable
wins whenever it is set and non-empty (Python truthiness); otherwise the
configuration file supplies the key (stripped); a missing file, a
malformed file, or an empty/absent key raises. -/
def get_api_key (env : Option String) (cfg : ConfigFile) : Except ApiKeyError String :=
  if env.getD "" ≠ "" then Except.ok (env.getD "")
  else
    match cfg with
    | ConfigFile.absent => Except.error ApiKeyError.configFileNotFound
    | ConfigFile.malformed => Except.error ApiKeyError.wrappedError
    | ConfigFile.entries sk =>
      let key := pyStrip (sk.getD "")
      if key = "" then Except.error ApiKeyError.wrappedError
      else Except.ok key

/-- The parsed JSON body of one API response.  Its content is opaque to
the fetch loop except for Python truthiness (an empty dict or null JSON is
falsy); payload tags distinct responses. -/
structure ApiResponse where
  truthy : Bool
  payload : Nat
deriving DecidableEq

/-- What one network attempt (requests.post + raise_for_status +
response.json()) does, decided by the environment. -/
inductive NetOutcome
  | success (resp : ApiResponse)
  | httpError
  | transportError
deriving DecidableEq

/-- APIManager.search_part_number: the request either returns parsed JSON,
or raises — and both except branches catch, log and return None. -/
def search_part_number : NetOutcome → Option ApiResponse
  | NetOutcome.success r => some r
  | NetOutcome.httpError => none
  | NetOutcome.transportError => none

/-- How a call to search_part_number terminates as seen by its caller:
with a return value, or by raising. -/
inductive CallResult
  | returns (r : Option ApiResponse)
  | raises
deriving DecidableEq

/-- The loop's call of APIManager.search_part_number: it always returns
(every exception is caught inside search_part_number), so the loop's
except branch is unreachable. -/
def call_search (net : NetOutcome) : CallResult :=
  CallResult.returns (search_part_number net)

/-- wait_time = 15, the fixed sleep after a presumed rate limit. -/
def wait_time : Nat := 15

/-- The mutable state of the fetch loop in read_csv_and_search_parts,
plus observation traces: attempts counts every search call (and indexes
the oracle), sleeps logs each time.sleep duration, attempted logs the
identifier of every attempt, successes logs each identifier stored into
results. -/
structure LoopState where
  index : Nat
  attempts : Nat
  results : List (String × ApiResponse)
  api_error_parts : List String
  sleeps : List Nat
  attempted : List String
  successes : List String
deriving DecidableEq

/-- The loop state on entry: index 0, everything empty. -/
def initState : LoopState := ⟨0, 0, [], [], [], [], []⟩

/-- Python dict assignment results[k] = v: overwrite the existing entry
for k, else append a new one. -/
def dictInsert (k : String) (v : ApiResponse) :
    List (String × ApiResponse) → List (String × ApiResponse)
  | [] => [(k, v)]
  | (k1, v1) :: rest => if k1 = k then (k1, v) :: rest else (k1, v1) :: dictInsert k v rest

/-- One iteration of the while loop of read_csv_and_search_parts: attempt
the identifier at the current index; on a truthy result store it and
advance; on None or a falsy result sleep wait_time and retry; if the call
raised (structurally impossible, see call_search), record the identifier
as errored and advance. -/
def loopStep (parts : List String) (oracle : Nat → NetOutcome) (s : LoopState) : LoopState :=
  match parts[s.index]? with
  | none => s
  | some part =>
    let s1 := { s with attempts := s.attempts + 1, attempted := s.attempted ++ [part] }
    match call_search (oracle s.attempts) with
    | CallResult.returns (some r) =>
      if r.truthy then
        { s1 with results := dictInsert part r s1.results,
                  successes := s1.successes ++ [part],
                  index := s1.index + 1 }
      else { s1 with sleeps := s1.sleeps ++ [wait_time] }
    | CallResult.returns none => { s1 with sleeps := s1.sleeps ++ [wait_time] }
    | CallResult.raises =>
      { s1 with api_error_parts := s1.api_error_parts ++ [part], index := s1.index + 1 }

/-- The while loop, fuel-indexed: the source loop has no iteration bound
(it can retry one identifier forever), so runLoop n executes at most n
iterations of loopStep, stopping early once the index passes the end. -/
def runLoop (parts : List String) (oracle : Nat → NetOutcome) : Nat → LoopState → LoopState
  | 0, s => s
  | n + 1, s =>
    if s.index < parts.length then runLoop parts oracle n (loopStep parts oracle s)
    else s

/-- DataProcessor.read_csv_and_search_parts: obtain the API key first (an
error here propagates and nothing else runs), return empty results when no
URLs were extracted, otherwise run the fetch loop over the extracted
Mouser part numbers. -/
def read_csv_and_search_parts (env : Option String) (cfg : ConfigFile) (urls : List Url)
    (oracle : Nat → NetOutcome) (fuel : Nat) : Except ApiKeyError LoopState :=
  match get_api_key env cfg with
  | Except.error e => Except.error e
  | Except.ok _ =>
    if urls.isEmpty then Except.ok initState
    else Except.ok (runLoop (extract_part_numbers_from_urls urls).1 oracle fuel initState)

/-- The identifiers for which a network request was issued during the run:
none when the run aborted before the loop (missing credential). -/
def networkAttempts : Except ApiKeyError LoopState → List String
  | Except.error _ => []
  | Except.ok s => s.attempted

/-- An outcome the loop treats as a rate-limit signal coming from a
completed request: a response that parsed but is Python-falsy. -/
def softResp : NetOutcome → Bool
  | NetOutcome.success r => !r.truthy
  | _ => false

/-- The PartIdentifier keys of the ResultSet accumulated so far. -/
def keysOf (s : LoopState) : List String := s.results.map Prod.fst

lemma map_fst_dictInsert (k : String) (v : ApiResponse) (l : List (String × ApiResponse)) :
    (dictInsert k v l).map Prod.fst =
      if k ∈ l.map Prod.fst then l.map Prod.fst else l.map Prod.fst ++ [k] := by
  induction l with
  | nil => simp [dictInsert]
  | cons kv rest ih =>
    obtain ⟨k1, v1⟩ := kv
    by_cases hk : k1 = k
    · subst hk
      simp [dictInsert]
    · simp only [dictInsert, if_neg hk, List.map_cons, ih]
      have hne : ¬ k = k1 := fun h => hk h.symm
      by_cases hmem : k ∈ rest.map Prod.fst
      · simp [hmem, hne]
      · simp [hmem, hne]

/-- The invariant maintained by the fetch loop: ResultSet keys are
distinct, and every identifier logged as a success is a key. -/
def loopInv (s : LoopState) : Prop :=
  (keysOf s).Nodup ∧ ∀ p ∈ s.successes, p ∈ keysOf s

lemma loopStep_inv (parts : List String) (oracle : Nat → NetOutcome) (s : LoopState)
    (h : loopInv s) : loopInv (loopStep parts oracle s) := by
  unfold loopStep
  cases hp : parts[s.index]? with
  | none => exact h
  | some part =>
    cases hnet : oracle s.attempts with
    | success r =>
      simp only [call_search, search_part_number]
      by_cases ht : r.truthy
      · simp only [if_pos ht]
        constructor
        · show ((dictInsert part r s.results).map Prod.fst).Nodup
          rw [map_fst_dictInsert]
          by_cases hmem : part ∈ s.results.map Prod.fst
          · simpa [hmem] using h.1
          · rw [if_neg hmem, List.nodup_append]
            refine ⟨h.1, List.nodup_singleton _, ?_⟩
            intro a ha hha
            rw [List.mem_singleton] at hha
            exact hmem (hha ▸ ha)
        · intro p hp'
          show p ∈ (dictInsert part r s.results).map Prod.fst
          rw [map_fst_dictInsert]
          rcases List.mem_append.mp hp' with hold | hnew
          · have hk := h.2 p hold
            by_cases hmem : part ∈ s.results.map Prod.fst
            · rw [if_pos hmem]
              exact hk
            · rw [if_neg hmem]
              exact List.mem_append_left _ hk
          · rw [List.mem_singleton] at hnew
            subst hnew
            by_cases hmem : p ∈ s.results.map Prod.fst
            · rw [if_pos hmem]
              exact hmem
            · rw [if_neg hmem]
              exact List.mem_append_right _ (List.mem_singleton_self _)
      · simp only [if_neg ht]
        exact h
    | httpError =>
      simp only [call_search, search_part_number]
      exact h
    | transportError =>
      simp only [call_search, search_part_number]
      exact h

lemma runLoop_inv (parts : List String) (oracle : Nat → NetOutcome) :
    ∀ (fuel : Nat) (s : LoopState), loopInv s → loopInv (runLoop parts oracle fuel s) := by
  intro fuel
  induction fuel with
  | zero => intro s h; exact h
  | succ n ih =>
    intro s h
    unfold runLoop
    by_cases hidx : s.index < parts.length
    · rw [if_pos hidx]
      exact ih _ (loopStep_inv parts oracle s h)
    · rw [if_neg hidx]
      exact h

/-- C9: after any run of the fetch loop (any identifier sequence,
duplicates included, any oracle, any fuel), the PartIdentifier keys of the
ResultSet are unique, and every identifier logged as successfully fetched
keys an entry — hence exactly one entry. -/
theorem resultset_keys_unique (parts : List String) (oracle : Nat → NetOutcome) (fuel : Nat) :
    (keysOf (runLoop parts oracle fuel initState)).Nodup ∧
    ∀ p ∈ (runLoop parts oracle fuel initState).successes,
      p ∈ keysOf (runLoop parts oracle fuel initState) :=
  runLoop_inv parts oracle fuel initState ⟨List.nodup_nil, by simp [initState, keysOf]⟩

/-- Witness for C9 on a duplicated input sequence: fetching "A" twice
(both successful) still leaves "A" keying an entry of a Nodup key list. -/
theorem resultset_keys_unique_witness :
    "A" ∈ keysOf (runLoop ["A", "A"] (fun _ => NetOutcome.success ⟨true, 3⟩) 2 initState) :=
  (resultset_keys_unique ["A", "A"] (fun _ => NetOutcome.success ⟨true, 3⟩) 2).2 "A" (by decide)

lemma runLoop_soft (p : String) (rest : List String) (oracle : Nat → NetOutcome) :
    ∀ (k : Nat) (s : LoopState), s.index = 0 →
      (∀ j, j < k → softResp (oracle (s.attempts + j)) = true) →
      runLoop (p :: rest) oracle k s =
        { s with attempts := s.attempts + k,
                 sleeps := s.sleeps ++ List.replicate k wait_time,
                 attempted := s.attempted ++ List.replicate k p } := by
  intro k
  induction k with
  | zero =>
    intro s _ _
    simp [runLoop]
  | succ n ih =>
    intro s h0 hsoft
    have hidx : s.index < (p :: rest).length := by
      rw [h0]
      simp
    have hpart : (p :: rest)[s.index]? = some p := by
      rw [h0]
      simp
    have hsoft0 := hsoft 0 (Nat.succ_pos n)
    rw [Nat.add_zero] at hsoft0
    have hstep : loopStep (p :: rest) oracle s =
        { s with attempts := s.attempts + 1,
                 attempted := s.attempted ++ [p],
                 sleeps := s.sleeps ++ [wait_time] } := by
      unfold loopStep
      rw [hpart]
      cases hnet : oracle s.attempts with
      | success r =>
        rw [hnet] at hsoft0
        simp only [softResp, Bool.not_eq_true'] at hsoft0
        simp only [call_search, search_part_number, hsoft0]
        rfl
      | httpError =>
        rw [hnet] at hsoft0
        simp [softResp] at hsoft0
      | transportError =>
        rw [hnet] at hsoft0
        simp [softResp] at hsoft0
    unfold runLoop
    rw [if_pos hidx, hstep]
    have hshift : ∀ j, j < n →
        softResp (oracle ((s.attempts + 1) + j)) = true := by
      intro j hj
      have := hsoft (j + 1) (by omega)
      rwa [show s.attempts + (j + 1) = s.attempts + 1 + j by omega] at this
    have hrec := ih { s with attempts := s.attempts + 1, attempted := s.attempted ++ [p],
                             sleeps := s.sleeps ++ [wait_time] } h0 hshift
    rw [hrec]
    have hatt : s.attempts + 1 + n = s.attempts + (n + 1) := by omega
    simp [hatt, List.replicate_succ, List.append_assoc]

/-- C5: a soft failure (the request completes but yields an empty or null
result) never advances the loop: starting the fetch loop on a non-empty
identifier list with the first k attempts all soft failures leaves the
index at 0 with no results and no errors, k sleeps of the fixed 15-second
wait, and the same first identifier attempted all k times — for every k,
so there is no maximum retry count, and no later identifier is processed
while the first is unresolved. -/
theorem soft_failure_blocking_retry (p : String) (rest : List String)
    (oracle : Nat → NetOutcome) (k : Nat)
    (hsoft : ∀ j, j < k → softResp (oracle j) = true) :
    runLoop (p :: rest) oracle k initState =
      { initState with attempts := k, sleeps := List.replicate k wait_time,
                       attempted := List.replicate k p } := by
  have h := runLoop_soft p rest oracle k initState rfl (by simpa [initState] using hsoft)
  simpa [initState] using h

/-- Witness for C5: three soft failures in a row on identifier "P1" give
three 15-second sleeps, three attempts of "P1", and no progress. -/
theorem soft_failure_blocking_retry_witness :
    runLoop ["P1"] (fun _ => NetOutcome.success ⟨false, 0⟩) 3 initState =
      { initState with attempts := 3, sleeps := List.replicate 3 wait_time,
                       attempted := List.replicate 3 "P1" } :=
  soft_failure_blocking_retry "P1" [] (fun _ => NetOutcome.success ⟨false, 0⟩) 3 (by decide)

/-- C1 counterexample: with the first attempt for "P1" raising a
transport error (requests.post raises) and the second succeeding, the loop
neither records "P1" in the error list nor advances past it on the failed
attempt — the error is swallowed inside search_part_number, returned as
None, and treated as a rate-limit signal — and "P1" ends up as a key of
the returned ResultSet, contradicting the claim that hard-failed
identifiers are recorded as errors and never appear in the ResultSet. -/
theorem transport_error_counterexample :
    (fun n => if n = 0 then NetOutcome.transportError
      else NetOutcome.success ⟨true, 7⟩) 0 = NetOutcome.transportError ∧
    (runLoop ["P1"] (fun n => if n = 0 then NetOutcome.transportError
      else NetOutcome.success ⟨true, 7⟩) 1 initState).index = 0 ∧
    (runLoop ["P1"] (fun n => if n = 0 then NetOutcome.transportError
      else NetOutcome.success ⟨true, 7⟩) 1 initState).api_error_parts = [] ∧
    (runLoop ["P1"] (fun n => if n = 0 then NetOutcome.transportError
      else NetOutcome.success ⟨true, 7⟩) 2 initState).api_error_parts = [] ∧
    keysOf (runLoop ["P1"] (fun n => if n = 0 then NetOutcome.transportError
      else NetOutcome.success ⟨true, 7⟩) 2 initState) = ["P1"] := by
  decide

/-- C1 amended: a transport or protocol error during the request is
caught inside search_part_number, which returns None; call_search
therefore never raises, so the loop's except branch (the only writer of
the error list) is unreachable, and on a None result the loop does not
advance and does not record the identifier — it sleeps the fixed wait and
retries the same identifier, exactly like a soft failure; consequently an
identifier whose attempt hard-failed can still succeed later and appear
in the ResultSet. -/
theorem transport_error_soft_retry :
    search_part_number NetOutcome.transportError = none ∧
    search_part_number NetOutcome.httpError = none ∧
    (∀ net, call_search net ≠ CallResult.raises) ∧
    (∀ (parts : List String) (oracle : Nat → NetOutcome) (s : LoopState) (part : String),
      parts[s.index]? = some part →
      search_part_number (oracle s.attempts) = none →
      loopStep parts oracle s =
        { s with attempts := s.attempts + 1, attempted := s.attempted ++ [part],
                 sleeps := s.sleeps ++ [wait_time] }) := by
  refine ⟨rfl, rfl, ?_, ?_⟩
  · intro net
    cases net <;> simp [call_search, search_part_number]
  · intro parts oracle s part hp hnone
    unfold loopStep
    rw [hp]
    simp only [call_search, hnone]

/-- Witness for C1's amended claim: a transport error on the first
attempt leaves the error list and index untouched and logs one sleep. -/
theorem transport_error_soft_retry_witness :
    loopStep ["P1"] (fun _ => NetOutcome.transportError) initState =
      { initState with attempts := 1, attempted := ["P1"], sleeps := [wait_time] } := by
  have h := transport_error_soft_retry.2.2.2 ["P1"] (fun _ => NetOutcome.transportError)
    initState "P1" rfl rfl
  simpa [initState] using h

/-- C8: the environment variable wins whenever set and non-empty, with the
configuration file never consulted (the result is independent of it); an
absent or empty environment variable defers to the configuration file,
whose stripped search_api_key is returned when non-empty; when neither
source supplies a key the run fails with a configuration error; and a
run of read_csv_and_search_parts whose key lookup fails issues no network
request at all. -/
theorem api_key_precedence :
    (∀ (s : String) (cfg : ConfigFile), s ≠ "" → get_api_key (some s) cfg = Except.ok s) ∧
    (∀ cfg : ConfigFile, get_api_key (some "") cfg = get_api_key none cfg) ∧
    (∀ k : String, pyStrip k ≠ "" →
      get_api_key none (ConfigFile.entries (some k)) = Except.ok (pyStrip k)) ∧
    (∀ (env : Option String) (cfg : ConfigFile), (env = none ∨ env = some "") →
      (cfg = ConfigFile.absent ∨ cfg = ConfigFile.malformed ∨
        cfg = ConfigFile.entries none ∨
        ∃ w, cfg = ConfigFile.entries (some w) ∧ pyStrip w = "") →
      ∃ e, get_api_key env cfg = Except.error e) ∧
    (∀ (env : Option String) (cfg : ConfigFile) (urls : List Url)
        (oracle : Nat → NetOutcome) (fuel : Nat) (e : ApiKeyError),
      get_api_key env cfg = Except.error e →
      networkAttempts (read_csv_and_search_parts env cfg urls oracle fuel) = []) := by
  refine ⟨?_, ?_, ?_, ?_, ?_⟩
  · intro s cfg hs
    simp [get_api_key, hs]
  · intro cfg
    simp [get_api_key]
  · intro k hk
    simp [get_api_key, hk]
  · intro env cfg henv hcfg
    have henv' : env.getD "" = "" := by
      rcases henv with rfl | rfl <;> rfl
    rcases hcfg with rfl | rfl | rfl | ⟨w, rfl, hw⟩
    · exact ⟨ApiKeyError.configFileNotFound, by simp [get_api_key, henv']⟩
    · exact ⟨ApiKeyError.wrappedError, by simp [get_api_key, henv']⟩
    · exact ⟨ApiKeyError.wrappedError, by simp [get_api_key, henv', pyStrip]⟩
    · exact ⟨ApiKeyError.wrappedError, by simp [get_api_key, henv', hw]⟩
  · intro env cfg urls oracle fuel e h
    unfold read_csv_and_search_parts
    rw [h]
    rfl

/-- Witness for C8: a set environment variable is returned as-is even with
the configuration file missing, and a run with no credential at all makes
zero network attempts. -/
theorem api_key_precedence_witness :
    get_api_key (some "KEY") ConfigFile.absent = Except.ok "KEY" ∧
    networkAttempts (read_csv_and_search_parts none ConfigFile.absent
      [⟨"u", none⟩] (fun _ => NetOutcome.httpError) 5) = [] := by
  constructor
  · exact api_key_precedence.1 "KEY" ConfigFile.absent (by decide)
  · exact api_key_precedence.2.2.2.2 none ConfigFile.absent [⟨"u", none⟩]
      (fun _ => NetOutcome.httpError) 5 ApiKeyError.configFileNotFound rfl
